import Mathlib

/-!
Shallow embedding of the `flask-navigation` library (`flask_navigation/item.py`)
and verification of its specification.

Python mappings (dicts) are embedded as association lists `List (K × V)` whose
key lists are duplicate-free (`NodupKeys`); the dict operations (lookup,
assignment, deletion, `dict(...)` conversion, dict `==`) are embedded as
executable functions on those lists.  Exceptions are embedded with `Except`:
an operation that raises returns `Except.error` and produces no new state,
which models the fact that the Python code validates before mutating.
-/

namespace FlaskNav

/-- Errors surfaced by the collection operations: Python `IndexError` for
positional access out of range and `KeyError` for a failed identity lookup. -/
inductive Err : Type where
  | indexError : Err
  | keyError : Err
deriving DecidableEq

/-- Lookup in a Python dict embedded as an association list: the value at the
first matching key, if any. -/
def dlookup {K V : Type} [DecidableEq K] (k : K) : List (K × V) → Option V
  | [] => none
  | p :: t => if p.1 = k then some p.2 else dlookup k t

/-- Assignment `d[k] = v` on a Python dict: replace the value in place if the
key is present, otherwise add the pair at the end (dicts preserve insertion
order). -/
def dinsert {K V : Type} [DecidableEq K] (k : K) (v : V) : List (K × V) → List (K × V)
  | [] => [(k, v)]
  | p :: t => if p.1 = k then (k, v) :: t else p :: dinsert k v t

/-- Removal of the first entry with key `k` (the only one, in a dict). -/
def derase {K V : Type} [DecidableEq K] (k : K) : List (K × V) → List (K × V)
  | [] => []
  | p :: t => if p.1 = k then t else p :: derase k t

/-- Python `del d[k]`: raises `KeyError` when the key is absent. -/
def ddelete {K V : Type} [DecidableEq K] (k : K) (m : List (K × V)) :
    Except Err (List (K × V)) :=
  if (dlookup k m).isSome then Except.ok (derase k m) else Except.error Err.keyError

/-- The keys of an embedded dict, in order. -/
def dkeys {K V : Type} (m : List (K × V)) : List K := m.map Prod.fst

/-- A genuine dict: no key occurs twice. -/
abbrev NodupKeys {K V : Type} (m : List (K × V)) : Prop := (dkeys m).Nodup

/-- Python `dict(pairs)`: build a dict by assigning each pair in order
(later occurrences of a key win). -/
def pyDict {K V : Type} [DecidableEq K] (l : List (K × V)) : List (K × V) :=
  l.foldl (fun acc p => dinsert p.1 p.2 acc) []

/-- Python dict equality `m1 == m2`: same keys and the same value at every
key, independent of entry order. -/
def dictBEq {K V : Type} [DecidableEq K] [DecidableEq V] (m1 m2 : List (K × V)) : Bool :=
  m1.all (fun p => decide (dlookup p.1 m2 = some p.2)) &&
    m2.all (fun p => decide (dlookup p.1 m1 = some p.2))

/-- Modelled from the spec: the identity normalizer `freeze_dict` lives in
`flask_navigation/utils.py`, which is not among the provided sources (only
`item.py` imports it).  Spec, section 4.1: "sort the mapping's entries by key,
produce an ordered sequence of (key, value) pairs, and wrap it in an immutable
hashable sequence type".  Embedded as sorting the association list by key. -/
def freeze_dict {K V : Type} [LinearOrder K] (m : List (K × V)) : List (K × V) :=
  List.insertionSort (fun a b => a.1 ≤ b.1) m

instance {K V : Type} [LinearOrder K] :
    DecidableRel (fun (a b : K × V) => a.1 ≤ b.1) :=
  fun a b => inferInstanceAs (Decidable (a.1 ≤ b.1))

instance {K V : Type} [LinearOrder K] : IsTotal (K × V) (fun a b => a.1 ≤ b.1) :=
  ⟨fun a b => le_total a.1 b.1⟩

instance {K V : Type} [LinearOrder K] : IsTrans (K × V) (fun a b => a.1 ≤ b.1) :=
  ⟨fun _ _ _ h1 h2 => le_trans h1 h2⟩

instance {K V : Type} [LinearOrder K] : IsAntisymm (K × V) (fun a b => a.1 < b.1) :=
  ⟨fun _ _ h1 h2 => absurd h2 (lt_asymm h1)⟩

theorem freeze_dict_perm {K V : Type} [LinearOrder K] (m : List (K × V)) :
    List.Perm (freeze_dict m) m :=
  List.perm_insertionSort _ m

theorem freeze_dict_sorted {K V : Type} [LinearOrder K] (m : List (K × V)) :
    List.Sorted (fun (a b : K × V) => a.1 ≤ b.1) (freeze_dict m) :=
  List.sorted_insertionSort _ m

theorem nodupKeys_of_perm {K V : Type} {m1 m2 : List (K × V)} (hp : List.Perm m1 m2)
    (h : NodupKeys m1) : NodupKeys m2 :=
  ((hp.map Prod.fst).nodup_iff).mp h

theorem sorted_strict_of_nodupKeys {K V : Type} [LinearOrder K] {m : List (K × V)}
    (hs : List.Sorted (fun (a b : K × V) => a.1 ≤ b.1) m) (hn : NodupKeys m) :
    List.Sorted (fun (a b : K × V) => a.1 < b.1) m := by
  have hne : List.Pairwise (fun (a b : K × V) => a.1 ≠ b.1) m :=
    (List.pairwise_map).mp hn
  exact hs.imp₂ (fun a b hle hne => lt_of_le_of_ne hle hne) hne

theorem freeze_dict_eq_of_perm {K V : Type} [LinearOrder K] {m1 m2 : List (K × V)}
    (hn : NodupKeys m1) (hp : List.Perm m1 m2) : freeze_dict m1 = freeze_dict m2 := by
  have hp' : List.Perm (freeze_dict m1) (freeze_dict m2) :=
    ((freeze_dict_perm m1).trans hp).trans (freeze_dict_perm m2).symm
  have hn1 : NodupKeys (freeze_dict m1) := nodupKeys_of_perm (freeze_dict_perm m1).symm hn
  have hn2 : NodupKeys (freeze_dict m2) := nodupKeys_of_perm hp' hn1
  exact List.eq_of_perm_of_sorted hp'
    (sorted_strict_of_nodupKeys (freeze_dict_sorted m1) hn1)
    (sorted_strict_of_nodupKeys (freeze_dict_sorted m2) hn2)

theorem dlookup_mem {K V : Type} [DecidableEq K] {k : K} {v : V} {m : List (K × V)}
    (h : dlookup k m = some v) : (k, v) ∈ m := by
  induction m with
  | nil => simp [dlookup] at h
  | cons p t ih =>
    simp only [dlookup] at h
    by_cases hk : p.1 = k
    · rw [if_pos hk] at h
      injection h with hv
      subst hv
      subst hk
      exact List.mem_cons.mpr (Or.inl rfl)
    · rw [if_neg hk] at h
      exact List.mem_cons_of_mem _ (ih h)

theorem mem_dlookup {K V : Type} [DecidableEq K] {k : K} {v : V} {m : List (K × V)}
    (hn : NodupKeys m) (h : (k, v) ∈ m) : dlookup k m = some v := by
  induction m with
  | nil => simp at h
  | cons p t ih =>
    rcases List.mem_cons.mp h with h1 | h1
    · simp [dlookup, ← h1]
    · have hk : p.1 ≠ k := by
        intro he
        have : k ∈ dkeys t := List.mem_map_of_mem Prod.fst h1
        have hni : p.1 ∉ dkeys t := (List.nodup_cons.mp hn).1
        exact hni (he ▸ this)
      simpa [dlookup, hk] using ih (List.nodup_cons.mp hn).2 h1

theorem dlookup_eq_none {K V : Type} [DecidableEq K] {k : K} {m : List (K × V)} :
    dlookup k m = none ↔ k ∉ dkeys m := by
  induction m with
  | nil => simp [dlookup, dkeys]
  | cons p t ih =>
    by_cases hk : p.1 = k <;> simp [dlookup, dkeys, hk, ih, Ne.symm]

theorem dinsert_of_not_mem {K V : Type} [DecidableEq K] {k : K} {m : List (K × V)}
    (v : V) (h : k ∉ dkeys m) : dinsert k v m = m ++ [(k, v)] := by
  induction m with
  | nil => rfl
  | cons p t ih =>
    simp only [dkeys, List.map_cons, List.mem_cons] at h
    push_neg at h
    have hp : ¬ p.1 = k := fun he => h.1 he.symm
    simp [dinsert, hp, ih (by simpa [dkeys] using h.2)]

theorem dkeys_dinsert_mem {K V : Type} [DecidableEq K] {k : K} {m : List (K × V)}
    (v : V) (h : k ∈ dkeys m) : dkeys (dinsert k v m) = dkeys m := by
  induction m with
  | nil => simp [dkeys] at h
  | cons p t ih =>
    by_cases hk : p.1 = k
    · simp [dinsert, dkeys, hk]
    · have hm : k ∈ dkeys t := by
        simp only [dkeys, List.map_cons, List.mem_cons] at h
        exact h.resolve_left (fun he => hk he.symm)
      simp only [dinsert, if_neg hk, dkeys, List.map_cons]
      rw [show List.map Prod.fst (dinsert k v t) = List.map Prod.fst t from ih hm]

theorem dkeys_dinsert_not_mem {K V : Type} [DecidableEq K] {k : K} {m : List (K × V)}
    (v : V) (h : k ∉ dkeys m) : dkeys (dinsert k v m) = dkeys m ++ [k] := by
  rw [dinsert_of_not_mem v h]
  simp [dkeys]

theorem nodupKeys_dinsert {K V : Type} [DecidableEq K] {m : List (K × V)} (k : K) (v : V)
    (hn : NodupKeys m) : NodupKeys (dinsert k v m) := by
  unfold NodupKeys
  by_cases hm : k ∈ dkeys m
  · rw [dkeys_dinsert_mem v hm]
    exact hn
  · rw [dkeys_dinsert_not_mem v hm]
    simpa [List.nodup_append] using ⟨hn, hm⟩

theorem foldl_dinsert_fresh {K V : Type} [DecidableEq K] :
    ∀ (l acc : List (K × V)), NodupKeys l → (∀ k, k ∈ dkeys acc → k ∉ dkeys l) →
      List.foldl (fun acc p => dinsert p.1 p.2 acc) acc l = acc ++ l := by
  intro l
  induction l with
  | nil => simp
  | cons p t ih =>
    intro acc hn hd
    have h0 : (p.1 :: dkeys t).Nodup := hn
    have hn1 : p.1 ∉ dkeys t := (List.nodup_cons.mp h0).1
    have hn2 : NodupKeys t := (List.nodup_cons.mp h0).2
    have hfresh : p.1 ∉ dkeys acc := by
      intro hmem
      exact hd p.1 hmem (by simp [dkeys])
    have step : dinsert p.1 p.2 acc = acc ++ [p] := by
      simpa using dinsert_of_not_mem p.2 hfresh
    have hd' : ∀ k, k ∈ dkeys (acc ++ [p]) → k ∉ dkeys t := by
      intro k hk
      have hk2 : k ∈ dkeys acc ∨ k = p.1 := by
        have he : dkeys (acc ++ [p]) = dkeys acc ++ [p.1] := by simp [dkeys]
        rw [he, List.mem_append, List.mem_singleton] at hk
        exact hk
      rcases hk2 with h1 | h1
      · intro hkt
        refine hd k h1 ?_
        simp only [dkeys, List.map_cons, List.mem_cons]
        exact Or.inr hkt
      · subst h1
        exact hn1
    calc List.foldl (fun acc p => dinsert p.1 p.2 acc) acc (p :: t)
        = List.foldl (fun acc p => dinsert p.1 p.2 acc) (acc ++ [p]) t := by
          simp [step]
      _ = (acc ++ [p]) ++ t := ih (acc ++ [p]) hn2 hd'
      _ = acc ++ (p :: t) := by simp

theorem pyDict_eq_self {K V : Type} [DecidableEq K] {l : List (K × V)}
    (hn : NodupKeys l) : pyDict l = l := by
  simpa [pyDict] using foldl_dinsert_fresh l [] hn (by simp [dkeys])

theorem nodupKeys_pyDict {K V : Type} [DecidableEq K] (l : List (K × V)) :
    NodupKeys (pyDict l) := by
  suffices h : ∀ (l acc : List (K × V)), NodupKeys acc →
      NodupKeys (List.foldl (fun acc p => dinsert p.1 p.2 acc) acc l) by
    exact h l [] List.nodup_nil
  intro l
  induction l with
  | nil => intro acc h; simpa using h
  | cons p t ih =>
    intro acc h
    exact ih (dinsert p.1 p.2 acc) (nodupKeys_dinsert p.1 p.2 h)

theorem dictBEq_iff {K V : Type} [DecidableEq K] [DecidableEq V] {m1 m2 : List (K × V)}
    (h1 : NodupKeys m1) (h2 : NodupKeys m2) :
    dictBEq m1 m2 = true ↔ ∀ k, dlookup k m1 = dlookup k m2 := by
  simp only [dictBEq, Bool.and_eq_true, List.all_eq_true, decide_eq_true_eq]
  constructor
  · rintro ⟨ha, hb⟩ k
    cases hl : dlookup k m1 with
    | some v =>
      exact ((ha (k, v) (dlookup_mem hl))).symm
    | none =>
      cases hl2 : dlookup k m2 with
      | none => rfl
      | some w =>
        have := hb (k, w) (dlookup_mem hl2)
        rw [hl] at this
        cases this
  · intro h
    constructor
    · intro p hp
      rw [← h p.1]
      exact mem_dlookup h1 hp
    · intro p hp
      rw [h p.1]
      exact mem_dlookup h2 hp

/-- Claim C1: `freeze_dict` (= `normalize`) is order-independent and injective
on mapping contents: mappings holding the same key-value pairs in any insertion
order normalize identically, and mappings holding different sets of pairs
normalize differently.  "Same pairs in some order" is embedded as permutation
of the association lists, which for duplicate-free key lists coincides with
equality of the sets of pairs.  The result is a value of a type with decidable
equality (hence hashable) and is produced by a pure function (deterministic). -/
theorem freeze_dict_canonical {K V : Type} [LinearOrder K] (m1 m2 : List (K × V))
    (hn : NodupKeys m1) :
    (List.Perm m1 m2 → freeze_dict m1 = freeze_dict m2) ∧
      (¬ List.Perm m1 m2 → freeze_dict m1 ≠ freeze_dict m2) := by
  constructor
  · exact fun hp => freeze_dict_eq_of_perm hn hp
  · intro hnp heq
    exact hnp (((freeze_dict_perm m1).symm.trans (heq ▸ freeze_dict_perm m2 : List.Perm (freeze_dict m1) m2)))

theorem freeze_dict_canonical_witness :
    freeze_dict [("a", (1 : Nat)), ("b", 2)] = freeze_dict [("b", 2), ("a", 1)] ∧
      freeze_dict [("a", (1 : Nat)), ("b", 2)] ≠ freeze_dict [("a", 2), ("b", 1)] :=
  ⟨(freeze_dict_canonical _ _ (by decide)).1 (by decide),
    (freeze_dict_canonical _ _ (by decide)).2 (by decide)⟩

/-- The stored `args` constructor parameter of an `Item`: Python `None`, a
mapping, or a zero-argument callable producing a mapping. -/
inductive ArgSpec (K V : Type) : Type where
  | none : ArgSpec K V
  | mapping : List (K × V) → ArgSpec K V
  | callable : (Unit → List (K × V)) → ArgSpec K V

/-- The navigation item object (`Item` in `item.py`): stores the constructor
parameters `label`, `endpoint`, `args` (as `_args`) and `url` (as `_url`).
`label` is opaque to the library (type parameter `L`). -/
structure Item (L K V : Type) : Type where
  label : L
  endpoint : String
  _args : ArgSpec K V
  _url : Option String

/-- The `Item.args` property: `{}` when `_args is None`; `dict(self._args())`
when `_args` is callable; `dict(self._args)` otherwise. -/
def Item.args {L K V : Type} [DecidableEq K] (it : Item L K V) : List (K × V) :=
  match it._args with
  | ArgSpec.none => []
  | ArgSpec.callable f => pyDict (f ())
  | ArgSpec.mapping m => pyDict m

/-- The `Item.url` property: the stored literal `_url` if present, else
`url_for(self.endpoint, **self.args)`.  The external `url_for` capability is
passed in as `resolve`; its failures are values of an arbitrary error type
`E`. -/
def Item.url {L K V E : Type} [DecidableEq K]
    (resolve : String → List (K × V) → Except E String) (it : Item L K V) :
    Except E String :=
  match it._url with
  | Option.none => resolve it.endpoint it.args
  | Option.some u => Except.ok u

/-- The ambient per-request context read by `Item.is_active`: Flask's
`request.endpoint` (null outside request handling) and `request.view_args`. -/
structure NavRequest (K V : Type) : Type where
  endpoint : Option String
  view_args : List (K × V)

/-- The `Item.is_active` property: `self._url is None`, `request.endpoint ==
self.endpoint` and `request.view_args == self.args` (dict value equality),
all three conjoined.  The ambient `request` is passed explicitly. -/
def Item.is_active {L K V : Type} [DecidableEq K] [DecidableEq V]
    (req : NavRequest K V) (it : Item L K V) : Bool :=
  let is_internal := it._url.isNone
  let has_same_endpoint := decide (req.endpoint = some it.endpoint)
  let has_same_args := dictBEq req.view_args it.args
  is_internal && has_same_endpoint && has_same_args

/-- The `Item.ident` property: `(self.endpoint, freeze_dict(self.args))`. -/
def Item.ident {L K V : Type} [LinearOrder K] [DecidableEq K] (it : Item L K V) :
    String × List (K × V) :=
  (it.endpoint, freeze_dict it.args)

theorem args_nodupKeys {L K V : Type} [DecidableEq K] (it : Item L K V) :
    NodupKeys it.args := by
  unfold Item.args
  cases it._args with
  | none => exact List.nodup_nil
  | mapping m => exact nodupKeys_pyDict m
  | callable f => exact nodupKeys_pyDict (f ())

/-- Claim C6: the `args` property resolves the stored argument source without
mutating it (the embedding is a pure function of the item): `None` yields the
empty mapping, a callable is invoked with no arguments and its result
converted to a plain mapping, and a mapping is converted directly; for a
genuine mapping (duplicate-free keys) the conversion is the identity, and the
result is always a genuine mapping. -/
theorem item_args_resolution {L K V : Type} [DecidableEq K] (it : Item L K V)
    (m : List (K × V)) (f : Unit → List (K × V)) :
    (it._args = ArgSpec.none → it.args = [])
    ∧ (it._args = ArgSpec.mapping m → NodupKeys m → it.args = m)
    ∧ (it._args = ArgSpec.callable f → NodupKeys (f ()) → it.args = f ())
    ∧ NodupKeys it.args := by
  refine ⟨?_, ?_, ?_, args_nodupKeys it⟩
  · intro h
    unfold Item.args
    rw [h]
  · intro h hm
    unfold Item.args
    rw [h]
    exact pyDict_eq_self hm
  · intro h hf
    unfold Item.args
    rw [h]
    exact pyDict_eq_self hf

theorem item_args_resolution_witness :
    (Item.mk "n" "e1" (ArgSpec.none) none : Item String String Nat).args = []
    ∧ (Item.mk "m" "e2" (ArgSpec.mapping [("a", 1), ("b", 2)]) none :
        Item String String Nat).args = [("a", 1), ("b", 2)]
    ∧ (Item.mk "f" "e3" (ArgSpec.callable (fun _ => [("c", 3)])) none :
        Item String String Nat).args = [("c", 3)] :=
  ⟨(item_args_resolution _ [] (fun _ => [])).1 rfl,
    (item_args_resolution _ [("a", 1), ("b", 2)] (fun _ => [])).2.1 rfl (by decide),
    (item_args_resolution _ [] (fun _ => [("c", 3)])).2.2.1 rfl (by decide)⟩

/-- Claim C2: `is_active` is true iff no literal url override is stored, the
current request's endpoint equals the item's endpoint, and the request's
matched arguments are value-equal (same value at every key) to the item's
resolved args.  It is a pure function of the request and the item: reading it
mutates nothing and caches nothing, so under a different current request the
same item may give a different answer (see the witness, which flips the
request endpoint without re-constructing the item). -/
theorem item_is_active_characterization {L K V : Type} [DecidableEq K] [DecidableEq V]
    (req : NavRequest K V) (it : Item L K V) (h : NodupKeys req.view_args) :
    it.is_active req = true ↔
      it._url = none ∧ req.endpoint = some it.endpoint ∧
        ∀ k, dlookup k req.view_args = dlookup k it.args := by
  unfold Item.is_active
  simp only [Bool.and_eq_true, Option.isNone_iff_eq_none, decide_eq_true_eq]
  rw [dictBEq_iff h (args_nodupKeys it), and_assoc]

theorem item_is_active_characterization_witness :
    (Item.mk "About" "about" (ArgSpec.none) none : Item String String Nat).is_active
        (NavRequest.mk (some "about") []) = true
    ∧ (Item.mk "About" "about" (ArgSpec.none) none : Item String String Nat).is_active
        (NavRequest.mk (some "home") []) = false := by
  constructor
  · exact (item_is_active_characterization (NavRequest.mk (some "about") []) _
      List.nodup_nil).mpr ⟨rfl, rfl, fun k => rfl⟩
  · cases hb : (Item.mk "About" "about" (ArgSpec.none) none :
        Item String String Nat).is_active (NavRequest.mk (some "home") []) with
    | false => rfl
    | true =>
      have h2 := (item_is_active_characterization (NavRequest.mk (some "home") []) _
        List.nodup_nil).mp hb
      exact absurd h2.2.1 (by decide)

/-- Claim C3: an item constructed with a literal url returns exactly that
literal from the `url` property — the resolver is never consulted, so the
result is the same for every resolver, including one that always fails — and
`is_active` is false under every current request. -/
theorem item_literal_url {L K V E : Type} [DecidableEq K] [DecidableEq V]
    (resolve : String → List (K × V) → Except E String) (req : NavRequest K V)
    (it : Item L K V) (u : String) (h : it._url = some u) :
    it.url resolve = Except.ok u ∧ it.is_active req = false := by
  constructor
  · unfold Item.url
    rw [h]
  · unfold Item.is_active
    rw [h]
    simp

theorem item_literal_url_witness :
    (Item.mk "Ext" "ext" (ArgSpec.none) (some "http://x/") :
        Item String String Nat).url (fun _ _ => Except.error ()) =
      Except.ok "http://x/"
    ∧ (Item.mk "Ext" "ext" (ArgSpec.none) (some "http://x/") :
        Item String String Nat).is_active (NavRequest.mk (some "ext") []) = false :=
  item_literal_url (fun _ _ => Except.error ()) (NavRequest.mk (some "ext") []) _
    "http://x/" rfl

/-- Claim C7: for an item without a literal url, the `url` property is exactly
the external URL resolution capability applied to the item's endpoint and its
resolved args, and any failure of that capability propagates unmodified. -/
theorem item_url_delegates {L K V E : Type} [DecidableEq K]
    (resolve : String → List (K × V) → Except E String) (it : Item L K V)
    (h : it._url = none) :
    it.url resolve = resolve it.endpoint it.args
    ∧ ∀ e, resolve it.endpoint it.args = Except.error e →
        it.url resolve = Except.error e := by
  have h1 : it.url resolve = resolve it.endpoint it.args := by
    unfold Item.url
    rw [h]
  exact ⟨h1, fun e he => h1.trans he⟩

theorem item_url_delegates_witness :
    (Item.mk "Home" "home" (ArgSpec.none) none : Item String String Nat).url
        (fun e _ => if e = "home" then Except.ok "/home/" else Except.error "BuildError") =
      Except.ok "/home/"
    ∧ (Item.mk "Bad" "bad" (ArgSpec.none) none : Item String String Nat).url
        (fun e _ => if e = "home" then Except.ok "/home/" else Except.error "BuildError") =
      Except.error "BuildError" := by
  constructor
  · exact (item_url_delegates _ _ rfl).1.trans rfl
  · exact (item_url_delegates _ _ rfl).2 "BuildError" rfl

/-- Claim C9: whenever the current request's endpoint is null (outside request
handling), `is_active` is false for every item — whatever the item's own
endpoint string, stored url and args are. -/
theorem item_inactive_outside_request {L K V : Type} [DecidableEq K] [DecidableEq V]
    (req : NavRequest K V) (it : Item L K V) (h : req.endpoint = none) :
    it.is_active req = false := by
  unfold Item.is_active
  rw [h]
  simp

theorem item_inactive_outside_request_witness :
    (Item.mk "About" "about" (ArgSpec.none) none : Item String String Nat).is_active
      (NavRequest.mk none []) = false :=
  item_inactive_outside_request (NavRequest.mk none []) _ rfl

theorem dlookup_dinsert_self {K V : Type} [DecidableEq K] (k : K) (v : V) :
    ∀ m : List (K × V), dlookup k (dinsert k v m) = some v := by
  intro m
  induction m with
  | nil => simp [dinsert, dlookup]
  | cons p t ih =>
    by_cases hk : p.1 = k
    · simp [dinsert, hk, dlookup]
    · simp [dinsert, hk, dlookup, ih]

/-- Python's interpretation of a possibly negative sequence index: a negative
index counts from the end. -/
def pyNorm (n : Nat) (i : Int) : Int := if i < 0 then i + n else i

/-- Whether an index is in range for positional get/set/delete (Python raises
`IndexError` otherwise). -/
abbrev PyValid (n : Nat) (i : Int) : Prop := 0 ≤ pyNorm n i ∧ pyNorm n i < n

/-- Python `l[i]` on a list. -/
def pyGet {α : Type} (l : List α) (i : Int) : Except Err α :=
  if h : PyValid l.length i then
    Except.ok (l.get ⟨(pyNorm l.length i).toNat, by
      have h1 := h.1
      have h2 := h.2
      omega⟩)
  else Except.error Err.indexError

/-- Python `l[i] = x` on a list. -/
def pySet {α : Type} (l : List α) (i : Int) (x : α) : Except Err (List α) :=
  if PyValid l.length i then Except.ok (l.set (pyNorm l.length i).toNat x)
  else Except.error Err.indexError

/-- Python `del l[i]` on a list. -/
def pyEraseIdx {α : Type} (l : List α) (i : Int) : Except Err (List α) :=
  if PyValid l.length i then Except.ok (l.eraseIdx (pyNorm l.length i).toNat)
  else Except.error Err.indexError

/-- Insertion before a clamped non-negative position (an index at or beyond
the length appends at the tail). -/
def listInsertAt {α : Type} : Nat → α → List α → List α
  | _, x, [] => [x]
  | 0, x, l => x :: l
  | Nat.succ n, x, a :: l => a :: listInsertAt n x l

/-- Python `l.insert(i, x)`: the index is clamped, never rejected — a negative
index below `-len(l)` clamps to the head, an index at or above `len(l)`
clamps to the tail. -/
def pyInsertIdx {α : Type} (l : List α) (i : Int) (x : α) : List α :=
  listInsertAt (if i < 0 then (i + l.length).toNat else i.toNat) x l

theorem listInsertAt_length {α : Type} (x : α) :
    ∀ (l : List α) (n : Nat), (listInsertAt n x l).length = l.length + 1 := by
  intro l
  induction l with
  | nil => intro n; cases n <;> rfl
  | cons a t ih =>
    intro n
    cases n with
    | zero => rfl
    | succ m => simp [listInsertAt, ih]

theorem listInsertAt_zero {α : Type} (x : α) (l : List α) :
    listInsertAt 0 x l = x :: l := by
  cases l <;> rfl

theorem listInsertAt_ge {α : Type} (x : α) :
    ∀ (l : List α) (n : Nat), l.length ≤ n → listInsertAt n x l = l ++ [x] := by
  intro l
  induction l with
  | nil => intro n _; cases n <;> rfl
  | cons a t ih =>
    intro n h
    cases n with
    | zero => simp at h
    | succ m =>
      have : t.length ≤ m := by simpa using h
      simp [listInsertAt, ih m this]

theorem listInsertAt_perm {α : Type} (x : α) :
    ∀ (l : List α) (n : Nat), List.Perm (listInsertAt n x l) (x :: l) := by
  intro l
  induction l with
  | nil => intro n; cases n <;> exact List.Perm.refl _
  | cons a t ih =>
    intro n
    cases n with
    | zero => exact List.Perm.refl _
    | succ m => exact ((ih m).cons a).trans (List.Perm.swap x a t)

theorem listInsertAt_map {α β : Type} (f : α → β) (x : α) :
    ∀ (l : List α) (n : Nat),
      (listInsertAt n x l).map f = listInsertAt n (f x) (l.map f) := by
  intro l
  induction l with
  | nil => intro n; cases n <;> rfl
  | cons a t ih =>
    intro n
    cases n with
    | zero => rfl
    | succ m => simp [listInsertAt, ih]

theorem map_eraseIdx {α β : Type} (f : α → β) :
    ∀ (l : List α) (i : Nat), (l.eraseIdx i).map f = (l.map f).eraseIdx i := by
  intro l
  induction l with
  | nil => intro i; rfl
  | cons a t ih =>
    intro i
    cases i with
    | zero => rfl
    | succ j => simp [List.eraseIdx, ih]

theorem set_perm_cons_eraseIdx {α : Type} (l : List α) (i : Nat) (x : α)
    (h : i < l.length) : List.Perm (l.set i x) (x :: l.eraseIdx i) := by
  rw [List.set_eq_take_cons_drop x h, List.eraseIdx_eq_take_drop_succ]
  exact List.perm_middle

theorem get_cons_eraseIdx_perm {α : Type} :
    ∀ (l : List α) (i : Nat) (h : i < l.length),
      List.Perm l (l.get ⟨i, h⟩ :: l.eraseIdx i) := by
  intro l
  induction l with
  | nil => intro i h; simp at h
  | cons a t ih =>
    intro i h
    cases i with
    | zero => exact List.Perm.refl _
    | succ j =>
      have hj : j < t.length := by simpa using h
      exact ((ih j hj).cons a).trans (List.Perm.swap _ a _)

theorem nodup_erase_eq_eraseIdx {α : Type} [DecidableEq α] :
    ∀ (l : List α) (i : Nat) (h : i < l.length), l.Nodup →
      l.erase (l.get ⟨i, h⟩) = l.eraseIdx i := by
  intro l
  induction l with
  | nil => intro i h; simp at h
  | cons a t ih =>
    intro i h hn
    cases i with
    | zero => simp
    | succ j =>
      have hj : j < t.length := by simpa using h
      have hne : a ≠ t.get ⟨j, hj⟩ := by
        intro he
        exact (List.nodup_cons.mp hn).1 (he ▸ t.get_mem _ _)
      rw [show ((a :: t).get ⟨j + 1, h⟩) = t.get ⟨j, hj⟩ from rfl,
        List.erase_cons_tail (by simpa using hne),
        ih j hj (List.nodup_cons.mp hn).2]
      rfl

theorem dkeys_derase {K V : Type} [DecidableEq K] (k : K) :
    ∀ m : List (K × V), dkeys (derase k m) = (dkeys m).erase k := by
  intro m
  induction m with
  | nil => rfl
  | cons p t ih =>
    by_cases hk : p.1 = k
    · subst hk
      simp [derase, dkeys]
    · rw [show derase k (p :: t) = p :: derase k t by simp [derase, hk],
        show dkeys (p :: t) = p.1 :: dkeys t from rfl,
        show dkeys (p :: derase k t) = p.1 :: dkeys (derase k t) from rfl,
        List.erase_cons_tail (by simpa using hk), ih]

theorem dlookup_isSome {K V : Type} [DecidableEq K] {k : K} {m : List (K × V)} :
    (dlookup k m).isSome = true ↔ k ∈ dkeys m := by
  cases hl : dlookup k m with
  | none => simp [dlookup_eq_none.mp hl]
  | some v =>
    simp only [Option.isSome_some, true_iff]
    exact List.mem_map_of_mem Prod.fst (dlookup_mem hl)

/-- The collection of navigation items (`ItemCollection` in `item.py`): an
ordered sequence of items (`_items`) plus a parallel mapping from `ident` to
item (`_items_mapping`). -/
structure ItemCollection (L K V : Type) : Type where
  _items : List (Item L K V)
  _items_mapping : List ((String × List (K × V)) × Item L K V)

/-- `ItemCollection.__getitem__` with an integer index: positional access. -/
def ItemCollection.getitemIndex {L K V : Type} (c : ItemCollection L K V) (i : Int) :
    Except Err (Item L K V) :=
  pyGet c._items i

/-- `ItemCollection.__getitem__` with an endpoint (or `(endpoint, args)`
tuple): builds `(endpoint, freeze_dict(args))` and looks it up in the mapping;
a missing key raises `KeyError`.  The bare-endpoint form passes `args = {}`. -/
def ItemCollection.getitemIdent {L K V : Type} [LinearOrder K] [DecidableEq K] [DecidableEq V]
    (c : ItemCollection L K V) (endpoint : String) (args : List (K × V)) :
    Except Err (Item L K V) :=
  match dlookup (endpoint, freeze_dict args) c._items_mapping with
  | Option.some it => Except.ok it
  | Option.none => Except.error Err.keyError

/-- `ItemCollection.__setitem__`: reads the old item at the index (IndexError
if out of range, before any mutation), deletes its ident from the mapping,
overwrites the sequence slot, and maps the new item's ident to it. -/
def ItemCollection.setitem {L K V : Type} [LinearOrder K] [DecidableEq K] [DecidableEq V]
    (c : ItemCollection L K V) (i : Int) (x : Item L K V) :
    Except Err (ItemCollection L K V) := do
  let old ← pyGet c._items i
  let m1 ← ddelete old.ident c._items_mapping
  let items1 ← pySet c._items i x
  Except.ok (ItemCollection.mk items1 (dinsert x.ident x m1))

/-- `ItemCollection.__delitem__` with an integer index: reads the item at the
index (IndexError if out of range, before any mutation), removes it from the
sequence and removes its ident from the mapping. -/
def ItemCollection.delitem {L K V : Type} [LinearOrder K] [DecidableEq K] [DecidableEq V]
    (c : ItemCollection L K V) (i : Int) : Except Err (ItemCollection L K V) := do
  let it ← pyGet c._items i
  let items1 ← pyEraseIdx c._items i
  let m1 ← ddelete it.ident c._items_mapping
  Except.ok (ItemCollection.mk items1 m1)

/-- `ItemCollection.insert`: inserts into the sequence at the (clamped) index
and assigns `item.ident -> item` in the mapping, silently overwriting any
existing entry with the same ident. -/
def ItemCollection.insert {L K V : Type} [LinearOrder K] [DecidableEq K] [DecidableEq V]
    (c : ItemCollection L K V) (i : Int) (x : Item L K V) : ItemCollection L K V :=
  ItemCollection.mk (pyInsertIdx c._items i x) (dinsert x.ident x c._items_mapping)

/-- `append`, inherited from `MutableSequence`: `insert(len(self), item)`. -/
def ItemCollection.append {L K V : Type} [LinearOrder K] [DecidableEq K] [DecidableEq V]
    (c : ItemCollection L K V) (x : Item L K V) : ItemCollection L K V :=
  c.insert (c._items.length : Int) x

/-- `extend`, inherited from `MutableSequence`: append each element in
order. -/
def ItemCollection.extend {L K V : Type} [LinearOrder K] [DecidableEq K] [DecidableEq V]
    (c : ItemCollection L K V) (xs : List (Item L K V)) : ItemCollection L K V :=
  xs.foldl (fun a x => a.append x) c

/-- `ItemCollection.__init__`: start empty and extend with the initial
iterable. -/
def ItemCollection.ofIterable {L K V : Type} [LinearOrder K] [DecidableEq K] [DecidableEq V]
    (xs : List (Item L K V)) : ItemCollection L K V :=
  (ItemCollection.mk [] []).extend xs

/-- `ItemCollection.__len__`. -/
def ItemCollection.length {L K V : Type} (c : ItemCollection L K V) : Nat :=
  c._items.length

/-- The idents of the sequence's items, in order. -/
def ItemCollection.idents {L K V : Type} [LinearOrder K] [DecidableEq K] (c : ItemCollection L K V) :
    List (String × List (K × V)) :=
  c._items.map Item.ident

/-- The dual-index consistency invariant of the spec: the identity-mapping's
key set equals the set of idents of the sequence's items, and the sizes of
mapping and sequence are equal. -/
def InSync {L K V : Type} [LinearOrder K] [DecidableEq K] (c : ItemCollection L K V) : Prop :=
  (∀ k, k ∈ dkeys c._items_mapping ↔ k ∈ c.idents)
    ∧ c._items_mapping.length = c._items.length

/-- Claim C10: `insert` never fails on an out-of-range integer index — the
index is clamped.  The length always grows by exactly one ( `insert` is a
total function into collections, unlike `setitem`/`delitem` which can return
`IndexError`); an index at or beyond the length places the item at the tail,
and an index below `-length` places it at the head. -/
theorem collection_insert_clamps {L K V : Type} [LinearOrder K] [DecidableEq K] [DecidableEq V]
    (c : ItemCollection L K V) (i : Int) (x : Item L K V) :
    (c.insert i x)._items.length = c._items.length + 1
    ∧ ((c._items.length : Int) ≤ i → (c.insert i x)._items = c._items ++ [x])
    ∧ (i < -(c._items.length : Int) → (c.insert i x)._items = x :: c._items) := by
  refine ⟨?_, ?_, ?_⟩
  · simp [ItemCollection.insert, pyInsertIdx, listInsertAt_length]
  · intro h
    have hpos : ¬ i < 0 := by omega
    have hge : c._items.length ≤ i.toNat := by omega
    simp only [ItemCollection.insert, pyInsertIdx, hpos, if_false]
    exact listInsertAt_ge x _ _ hge
  · intro h
    have hneg : i < 0 := by omega
    have hz : (i + (c._items.length : Int)).toNat = 0 := by omega
    simp only [ItemCollection.insert, pyInsertIdx, hneg, if_true]
    rw [hz]
    exact listInsertAt_zero x _

theorem collection_insert_clamps_witness :
    ((ItemCollection.mk
        [Item.mk "A" "a" (ArgSpec.none) none, Item.mk "B" "b" (ArgSpec.none) none]
        [((Item.mk "A" "a" (ArgSpec.none) none : Item String String Nat).ident,
            Item.mk "A" "a" (ArgSpec.none) none),
          ((Item.mk "B" "b" (ArgSpec.none) none : Item String String Nat).ident,
            Item.mk "B" "b" (ArgSpec.none) none)]).insert (-10)
        (Item.mk "C" "c" (ArgSpec.none) none))._items.length = 3
    ∧ ((ItemCollection.mk
        [Item.mk "A" "a" (ArgSpec.none) none, Item.mk "B" "b" (ArgSpec.none) none]
        [((Item.mk "A" "a" (ArgSpec.none) none : Item String String Nat).ident,
            Item.mk "A" "a" (ArgSpec.none) none),
          ((Item.mk "B" "b" (ArgSpec.none) none : Item String String Nat).ident,
            Item.mk "B" "b" (ArgSpec.none) none)]).insert 5
        (Item.mk "C" "c" (ArgSpec.none) none))._items =
      [Item.mk "A" "a" (ArgSpec.none) none, Item.mk "B" "b" (ArgSpec.none) none,
        Item.mk "C" "c" (ArgSpec.none) none] := by
  constructor
  · rw [(collection_insert_clamps _ (-10) _).1]
    rfl
  · exact ((collection_insert_clamps _ 5 _).2.1 (by decide)).trans rfl

/-- Claim C8: lookup failures raise and nothing is mutated.  Identity lookup
with an absent `(endpoint, normalized args)` key yields `KeyError`;
`setitem` and `delitem` with an out-of-range index yield `IndexError`.  In
the embedding a failing operation returns `Except.error` and no new
collection, reflecting that the Python code validates the index/key before
performing any mutation, so the sequence and mapping are exactly as before. -/
theorem collection_lookup_failures {L K V : Type} [LinearOrder K] [DecidableEq K] [DecidableEq V]
    (c : ItemCollection L K V) (endpoint : String) (args : List (K × V)) (i : Int)
    (x : Item L K V) :
    ((endpoint, freeze_dict args) ∉ dkeys c._items_mapping →
        c.getitemIdent endpoint args = Except.error Err.keyError)
    ∧ (¬ PyValid c._items.length i →
        c.setitem i x = Except.error Err.indexError
        ∧ c.delitem i = Except.error Err.indexError) := by
  constructor
  · intro h
    unfold ItemCollection.getitemIdent
    rw [dlookup_eq_none.mpr h]
  · intro h
    constructor
    · unfold ItemCollection.setitem
      simp only [pyGet, h, dite_false, reduceDIte]
      rfl
    · unfold ItemCollection.delitem
      simp only [pyGet, h, dite_false, reduceDIte]
      rfl

theorem collection_lookup_failures_witness :
    (ItemCollection.mk [Item.mk "A" "a" (ArgSpec.none) none]
        [((Item.mk "A" "a" (ArgSpec.none) none : Item String String Nat).ident,
          Item.mk "A" "a" (ArgSpec.none) none)]).getitemIdent "missing" [] =
      Except.error Err.keyError
    ∧ (ItemCollection.mk [Item.mk "A" "a" (ArgSpec.none) none]
        [((Item.mk "A" "a" (ArgSpec.none) none : Item String String Nat).ident,
          Item.mk "A" "a" (ArgSpec.none) none)]).setitem 5
        (Item.mk "B" "b" (ArgSpec.none) none) = Except.error Err.indexError
    ∧ (ItemCollection.mk [Item.mk "A" "a" (ArgSpec.none) none]
        [((Item.mk "A" "a" (ArgSpec.none) none : Item String String Nat).ident,
          Item.mk "A" "a" (ArgSpec.none) none)]).delitem 5 =
      Except.error Err.indexError := by
  have h := collection_lookup_failures
    (ItemCollection.mk [Item.mk "A" "a" (ArgSpec.none) none]
      [((Item.mk "A" "a" (ArgSpec.none) none : Item String String Nat).ident,
        Item.mk "A" "a" (ArgSpec.none) none)]) "missing" [] 5
    (Item.mk "B" "b" (ArgSpec.none) none)
  exact ⟨h.1 (by decide), (h.2 (by decide)).1, (h.2 (by decide)).2⟩

/-- Claim C5: inserting an item whose identity already exists overwrites the
identity index but not the sequence: both items remain in the sequence (no
error is raised — `insert` is total), while identity lookup now returns the
newly inserted item.  The witness exercises the spec's example of two items
with the same args in a different key order, whose idents coincide. -/
theorem collection_duplicate_ident_insert {L K V : Type} [LinearOrder K] [DecidableEq K] [DecidableEq V]
    (c : ItemCollection L K V) (x y : Item L K V) (i : Int)
    (hx : x ∈ c._items) (hxy : y.ident = x.ident) :
    x ∈ (c.insert i y)._items ∧ y ∈ (c.insert i y)._items
    ∧ dlookup x.ident (c.insert i y)._items_mapping = some y := by
  have hperm : List.Perm (c.insert i y)._items (y :: c._items) :=
    listInsertAt_perm y c._items _
  refine ⟨?_, ?_, ?_⟩
  · exact hperm.mem_iff.mpr (List.mem_cons_of_mem _ hx)
  · exact hperm.mem_iff.mpr (List.mem_cons_self _ _)
  · show dlookup x.ident (dinsert y.ident y c._items_mapping) = some y
    rw [← hxy]
    exact dlookup_dinsert_self _ _ _

theorem collection_duplicate_ident_insert_witness :
    (Item.mk "X" "x" (ArgSpec.mapping [("b", 2), ("a", 1)]) none :
        Item String String Nat).ident =
      (Item.mk "X" "x" (ArgSpec.mapping [("a", 1), ("b", 2)]) none :
        Item String String Nat).ident
    ∧ (Item.mk "X" "x" (ArgSpec.mapping [("a", 1), ("b", 2)]) none :
        Item String String Nat) ∈
      ((ItemCollection.mk [Item.mk "X" "x" (ArgSpec.mapping [("a", 1), ("b", 2)]) none]
        [((Item.mk "X" "x" (ArgSpec.mapping [("a", 1), ("b", 2)]) none :
            Item String String Nat).ident,
          Item.mk "X" "x" (ArgSpec.mapping [("a", 1), ("b", 2)]) none)]).insert 1
        (Item.mk "X" "x" (ArgSpec.mapping [("b", 2), ("a", 1)]) none))._items
    ∧ (Item.mk "X" "x" (ArgSpec.mapping [("b", 2), ("a", 1)]) none :
        Item String String Nat) ∈
      ((ItemCollection.mk [Item.mk "X" "x" (ArgSpec.mapping [("a", 1), ("b", 2)]) none]
        [((Item.mk "X" "x" (ArgSpec.mapping [("a", 1), ("b", 2)]) none :
            Item String String Nat).ident,
          Item.mk "X" "x" (ArgSpec.mapping [("a", 1), ("b", 2)]) none)]).insert 1
        (Item.mk "X" "x" (ArgSpec.mapping [("b", 2), ("a", 1)]) none))._items
    ∧ dlookup (Item.mk "X" "x" (ArgSpec.mapping [("a", 1), ("b", 2)]) none :
          Item String String Nat).ident
        ((ItemCollection.mk [Item.mk "X" "x" (ArgSpec.mapping [("a", 1), ("b", 2)]) none]
          [((Item.mk "X" "x" (ArgSpec.mapping [("a", 1), ("b", 2)]) none :
              Item String String Nat).ident,
            Item.mk "X" "x" (ArgSpec.mapping [("a", 1), ("b", 2)]) none)]).insert 1
          (Item.mk "X" "x" (ArgSpec.mapping [("b", 2), ("a", 1)]) none))._items_mapping =
      some (Item.mk "X" "x" (ArgSpec.mapping [("b", 2), ("a", 1)]) none) := by
  have hfr : freeze_dict ((Item.mk "X" "x" (ArgSpec.mapping [("b", 2), ("a", 1)]) none :
      Item String String Nat).args) =
      freeze_dict ((Item.mk "X" "x" (ArgSpec.mapping [("a", 1), ("b", 2)]) none :
      Item String String Nat).args) :=
    freeze_dict_eq_of_perm (by decide) (by decide)
  have hid : (Item.mk "X" "x" (ArgSpec.mapping [("b", 2), ("a", 1)]) none :
      Item String String Nat).ident =
      (Item.mk "X" "x" (ArgSpec.mapping [("a", 1), ("b", 2)]) none :
      Item String String Nat).ident := by
    unfold Item.ident
    rw [hfr]
  have h := collection_duplicate_ident_insert
    (ItemCollection.mk [Item.mk "X" "x" (ArgSpec.mapping [("a", 1), ("b", 2)]) none]
      [((Item.mk "X" "x" (ArgSpec.mapping [("a", 1), ("b", 2)]) none :
          Item String String Nat).ident,
        Item.mk "X" "x" (ArgSpec.mapping [("a", 1), ("b", 2)]) none)])
    (Item.mk "X" "x" (ArgSpec.mapping [("a", 1), ("b", 2)]) none)
    (Item.mk "X" "x" (ArgSpec.mapping [("b", 2), ("a", 1)]) none)
    1 (List.mem_cons_self _ _) hid
  exact ⟨hid, h.1, h.2.1, h.2.2⟩

theorem except_ok_bind {E A B : Type} (a : A) (f : A → Except E B) :
    (Except.ok a >>= f) = f a := rfl

theorem except_error_bind {E A B : Type} (e : E) (f : A → Except E B) :
    ((Except.error e : Except E A) >>= f) = Except.error e := rfl

/-- The identity-mapping's keys are a permutation of the sequence's idents: a
stronger, order-aware form of `InSync`, used as the induction workhorse. -/
def KeysPerm {L K V : Type} [LinearOrder K] [DecidableEq K]
    (c : ItemCollection L K V) : Prop :=
  List.Perm (dkeys c._items_mapping) c.idents

theorem insync_of_keysPerm {L K V : Type} [LinearOrder K] [DecidableEq K]
    {c : ItemCollection L K V} (h : KeysPerm c) : InSync c := by
  refine ⟨fun k => h.mem_iff, ?_⟩
  have hl := h.length_eq
  simpa [dkeys, ItemCollection.idents] using hl

theorem keysPerm_of_insync {L K V : Type} [LinearOrder K] [DecidableEq K] [DecidableEq V]
    {c : ItemCollection L K V} (hnd : c.idents.Nodup) (hs : InSync c) : KeysPerm c := by
  have h1 : List.Subperm c.idents (dkeys c._items_mapping) :=
    List.subperm_of_subset hnd (fun a ha => (hs.1 a).mpr ha)
  have hlen : (dkeys c._items_mapping).length ≤ c.idents.length := by
    have h2 : c._items_mapping.length = c._items.length := hs.2
    simp [dkeys, ItemCollection.idents, h2]
  exact (h1.perm_of_length_le hlen).symm

theorem keysPerm_insert {L K V : Type} [LinearOrder K] [DecidableEq K] [DecidableEq V]
    (c : ItemCollection L K V) (x : Item L K V) (i : Int)
    (hk : KeysPerm c) (hx : x.ident ∉ c.idents) : KeysPerm (c.insert i x) := by
  have hxk : x.ident ∉ dkeys c._items_mapping := fun h => hx (hk.mem_iff.mp h)
  have hkeys : dkeys (c.insert i x)._items_mapping =
      dkeys c._items_mapping ++ [x.ident] :=
    dkeys_dinsert_not_mem x hxk
  have hidents : (c.insert i x).idents =
      listInsertAt (if i < 0 then (i + (c._items.length : Int)).toNat else i.toNat)
        x.ident c.idents :=
    listInsertAt_map Item.ident x c._items _
  unfold KeysPerm
  rw [hkeys, hidents]
  exact (List.perm_append_singleton _ _).trans
    ((hk.cons x.ident).trans (listInsertAt_perm _ _ _).symm)

theorem append_items {L K V : Type} [LinearOrder K] [DecidableEq K] [DecidableEq V]
    (c : ItemCollection L K V) (x : Item L K V) :
    (c.append x)._items = c._items ++ [x] := by
  show pyInsertIdx c._items (c._items.length : Int) x = c._items ++ [x]
  unfold pyInsertIdx
  rw [if_neg (by omega)]
  exact listInsertAt_ge x _ _ (by simp)

theorem idents_append {L K V : Type} [LinearOrder K] [DecidableEq K] [DecidableEq V]
    (c : ItemCollection L K V) (x : Item L K V) :
    (c.append x).idents = c.idents ++ [x.ident] := by
  show ((c.append x)._items).map Item.ident = _
  rw [append_items]
  simp [ItemCollection.idents]

theorem keysPerm_extend {L K V : Type} [LinearOrder K] [DecidableEq K] [DecidableEq V] :
    ∀ (xs : List (Item L K V)) (c : ItemCollection L K V), KeysPerm c →
      (c.idents ++ xs.map Item.ident).Nodup → KeysPerm (c.extend xs) := by
  intro xs
  induction xs with
  | nil => intro c hk _; exact hk
  | cons x t ih =>
    intro c hk hall
    have hall0 : (c.idents ++ x.ident :: t.map Item.ident).Nodup := by
      simpa using hall
    have hx : x.ident ∉ c.idents := by
      intro hmem
      exact (List.nodup_append.mp hall0).2.2 hmem (List.mem_cons_self _ _)
    have hk' : KeysPerm (c.append x) := keysPerm_insert c x _ hk hx
    have hall' : ((c.append x).idents ++ t.map Item.ident).Nodup := by
      rw [idents_append, List.append_assoc]
      exact hall0
    exact ih (c.append x) hk' hall'

theorem setitem_spec {L K V : Type} [LinearOrder K] [DecidableEq K] [DecidableEq V]
    (c : ItemCollection L K V) (i : Int) (x : Item L K V)
    (c' : ItemCollection L K V) (h : c.setitem i x = Except.ok c') :
    ∃ (j : Nat) (hj : j < c._items.length),
      j = (pyNorm c._items.length i).toNat
      ∧ (c._items.get ⟨j, hj⟩).ident ∈ dkeys c._items_mapping
      ∧ c'._items = c._items.set j x
      ∧ c'._items_mapping =
          dinsert x.ident x (derase (c._items.get ⟨j, hj⟩).ident c._items_mapping) := by
  unfold ItemCollection.setitem at h
  rw [pyGet] at h
  by_cases hv : PyValid c._items.length i
  · rw [dif_pos hv] at h
    rw [except_ok_bind] at h
    rw [ddelete] at h
    by_cases hsome :
        (dlookup (c._items.get ⟨(pyNorm c._items.length i).toNat, by
            have h1 := hv.1
            have h2 := hv.2
            omega⟩).ident c._items_mapping).isSome
    · rw [if_pos hsome] at h
      rw [except_ok_bind] at h
      rw [pySet, if_pos hv] at h
      rw [except_ok_bind] at h
      injection h with h
      subst h
      refine ⟨(pyNorm c._items.length i).toNat, by
          have h1 := hv.1
          have h2 := hv.2
          omega, rfl, ?_, rfl, rfl⟩
      exact dlookup_isSome.mp hsome
    · rw [if_neg hsome] at h
      rw [except_error_bind] at h
      exact Except.noConfusion h
  · rw [dif_neg hv] at h
    rw [except_error_bind] at h
    exact Except.noConfusion h

theorem delitem_spec {L K V : Type} [LinearOrder K] [DecidableEq K] [DecidableEq V]
    (c : ItemCollection L K V) (i : Int)
    (c' : ItemCollection L K V) (h : c.delitem i = Except.ok c') :
    ∃ (j : Nat) (hj : j < c._items.length),
      j = (pyNorm c._items.length i).toNat
      ∧ (c._items.get ⟨j, hj⟩).ident ∈ dkeys c._items_mapping
      ∧ c'._items = c._items.eraseIdx j
      ∧ c'._items_mapping = derase (c._items.get ⟨j, hj⟩).ident c._items_mapping := by
  unfold ItemCollection.delitem at h
  rw [pyGet] at h
  by_cases hv : PyValid c._items.length i
  · rw [dif_pos hv] at h
    rw [except_ok_bind] at h
    rw [pyEraseIdx, if_pos hv] at h
    rw [except_ok_bind] at h
    rw [ddelete] at h
    by_cases hsome :
        (dlookup (c._items.get ⟨(pyNorm c._items.length i).toNat, by
            have h1 := hv.1
            have h2 := hv.2
            omega⟩).ident c._items_mapping).isSome
    · rw [if_pos hsome] at h
      rw [except_ok_bind] at h
      injection h with h
      subst h
      refine ⟨(pyNorm c._items.length i).toNat, by
          have h1 := hv.1
          have h2 := hv.2
          omega, rfl, ?_, rfl, rfl⟩
      exact dlookup_isSome.mp hsome
    · rw [if_neg hsome] at h
      rw [except_error_bind] at h
      exact Except.noConfusion h
  · rw [dif_neg hv] at h
    rw [except_error_bind] at h
    exact Except.noConfusion h

theorem ident_get_idents {L K V : Type} [LinearOrder K] [DecidableEq K]
    (c : ItemCollection L K V) (j : Nat) (hj : j < c._items.length)
    (hj' : j < c.idents.length) :
    c.idents.get ⟨j, hj'⟩ = (c._items.get ⟨j, hj⟩).ident := by
  simp [ItemCollection.idents, List.get_eq_getElem, List.getElem_map]

theorem keysPerm_delitem {L K V : Type} [LinearOrder K] [DecidableEq K] [DecidableEq V]
    (c : ItemCollection L K V) (i : Int) (c' : ItemCollection L K V)
    (hnd : c.idents.Nodup) (hk : KeysPerm c)
    (h : c.delitem i = Except.ok c') : KeysPerm c' := by
  obtain ⟨j, hj, _, _, hitems, hmap⟩ := delitem_spec c i c' h
  have hj' : j < c.idents.length := by
    simpa [ItemCollection.idents] using hj
  unfold KeysPerm ItemCollection.idents
  rw [hmap, hitems, dkeys_derase]
  have hidents : (c._items.eraseIdx j).map Item.ident = c.idents.eraseIdx j :=
    map_eraseIdx Item.ident c._items j
  rw [hidents, ← nodup_erase_eq_eraseIdx c.idents j hj' hnd,
    ident_get_idents c j hj hj']
  exact hk.erase _

theorem keysPerm_setitem {L K V : Type} [LinearOrder K] [DecidableEq K] [DecidableEq V]
    (c : ItemCollection L K V) (i : Int) (x : Item L K V) (c' : ItemCollection L K V)
    (hnd : c.idents.Nodup) (hk : KeysPerm c) (hx : x.ident ∉ c.idents)
    (h : c.setitem i x = Except.ok c') : KeysPerm c' := by
  obtain ⟨j, hj, _, _, hitems, hmap⟩ := setitem_spec c i x c' h
  have hj' : j < c.idents.length := by
    simpa [ItemCollection.idents] using hj
  have hxk : x.ident ∉ dkeys (derase (c._items.get ⟨j, hj⟩).ident c._items_mapping) := by
    rw [dkeys_derase]
    intro hmem
    exact hx (hk.mem_iff.mp (@List.mem_of_mem_erase _ instBEqOfDecidableEq _ _ _ hmem))
  unfold KeysPerm ItemCollection.idents
  rw [hmap, hitems, dkeys_dinsert_not_mem x hxk, dkeys_derase]
  have hidents : (c._items.set j x).map Item.ident = c.idents.set j x.ident := by
    simp [ItemCollection.idents, List.map_set]
  rw [hidents]
  refine (List.perm_append_singleton _ _).trans ?_
  refine List.Perm.trans ?_ (set_perm_cons_eraseIdx c.idents j x.ident hj').symm
  refine List.Perm.cons _ ?_
  rw [← nodup_erase_eq_eraseIdx c.idents j hj' hnd, ident_get_idents c j hj hj']
  exact hk.erase _

/-- Claim C4: dual-index consistency.  For a collection whose sequence holds
no two items with the same identity and which satisfies the sync invariant
(the mapping's key set equals the sequence's ident set and their sizes agree),
every operation among `setitem`, `delitem`, `append`, `extend` and `insert`
of items whose identity is not already present preserves that invariant. -/
theorem collection_dual_index_sync {L K V : Type} [LinearOrder K] [DecidableEq K]
    [DecidableEq V] (c : ItemCollection L K V) (x : Item L K V)
    (xs : List (Item L K V)) (i : Int)
    (hnd : c.idents.Nodup) (hs : InSync c) :
    (x.ident ∉ c.idents →
        (∀ c', c.setitem i x = Except.ok c' → InSync c')
        ∧ InSync (c.append x)
        ∧ InSync (c.insert i x))
    ∧ (∀ c', c.delitem i = Except.ok c' → InSync c')
    ∧ ((c.idents ++ xs.map Item.ident).Nodup → InSync (c.extend xs)) := by
  have hk : KeysPerm c := keysPerm_of_insync hnd hs
  refine ⟨fun hx => ⟨?_, ?_, ?_⟩, ?_, ?_⟩
  · intro c' h
    exact insync_of_keysPerm (keysPerm_setitem c i x c' hnd hk hx h)
  · exact insync_of_keysPerm (keysPerm_insert c x _ hk hx)
  · exact insync_of_keysPerm (keysPerm_insert c x i hk hx)
  · intro c' h
    exact insync_of_keysPerm (keysPerm_delitem c i c' hnd hk h)
  · intro hall
    exact insync_of_keysPerm (keysPerm_extend xs c hk hall)

theorem collection_dual_index_sync_witness :
    InSync ((ItemCollection.mk
        [Item.mk "A" "a" (ArgSpec.none) none, Item.mk "B" "b" (ArgSpec.none) none]
        [((Item.mk "A" "a" (ArgSpec.none) none : Item String String Nat).ident,
            Item.mk "A" "a" (ArgSpec.none) none),
          ((Item.mk "B" "b" (ArgSpec.none) none : Item String String Nat).ident,
            Item.mk "B" "b" (ArgSpec.none) none)]).append
        (Item.mk "C" "c" (ArgSpec.none) none))
    ∧ InSync ((ItemCollection.mk
        [Item.mk "A" "a" (ArgSpec.none) none, Item.mk "B" "b" (ArgSpec.none) none]
        [((Item.mk "A" "a" (ArgSpec.none) none : Item String String Nat).ident,
            Item.mk "A" "a" (ArgSpec.none) none),
          ((Item.mk "B" "b" (ArgSpec.none) none : Item String String Nat).ident,
            Item.mk "B" "b" (ArgSpec.none) none)]).insert 0
        (Item.mk "C" "c" (ArgSpec.none) none))
    ∧ InSync (ItemCollection.mk
        [Item.mk "C" "c" (ArgSpec.none) none, Item.mk "B" "b" (ArgSpec.none) none]
        [((Item.mk "B" "b" (ArgSpec.none) none : Item String String Nat).ident,
            Item.mk "B" "b" (ArgSpec.none) none),
          ((Item.mk "C" "c" (ArgSpec.none) none : Item String String Nat).ident,
            Item.mk "C" "c" (ArgSpec.none) none)])
    ∧ InSync (ItemCollection.mk [Item.mk "B" "b" (ArgSpec.none) none]
        [((Item.mk "B" "b" (ArgSpec.none) none : Item String String Nat).ident,
          Item.mk "B" "b" (ArgSpec.none) none)])
    ∧ InSync ((ItemCollection.mk
        [Item.mk "A" "a" (ArgSpec.none) none, Item.mk "B" "b" (ArgSpec.none) none]
        [((Item.mk "A" "a" (ArgSpec.none) none : Item String String Nat).ident,
            Item.mk "A" "a" (ArgSpec.none) none),
          ((Item.mk "B" "b" (ArgSpec.none) none : Item String String Nat).ident,
            Item.mk "B" "b" (ArgSpec.none) none)]).extend
        [Item.mk "D" "d" (ArgSpec.none) none, Item.mk "E" "e" (ArgSpec.none) none]) := by
  have h := collection_dual_index_sync
    (ItemCollection.mk
      [Item.mk "A" "a" (ArgSpec.none) none, Item.mk "B" "b" (ArgSpec.none) none]
      [((Item.mk "A" "a" (ArgSpec.none) none : Item String String Nat).ident,
          Item.mk "A" "a" (ArgSpec.none) none),
        ((Item.mk "B" "b" (ArgSpec.none) none : Item String String Nat).ident,
          Item.mk "B" "b" (ArgSpec.none) none)])
    (Item.mk "C" "c" (ArgSpec.none) none)
    [Item.mk "D" "d" (ArgSpec.none) none, Item.mk "E" "e" (ArgSpec.none) none]
    0 (by decide) ⟨fun k => Iff.rfl, rfl⟩
  have hset := (h.1 (by decide)).1 (ItemCollection.mk
      [Item.mk "C" "c" (ArgSpec.none) none, Item.mk "B" "b" (ArgSpec.none) none]
      [((Item.mk "B" "b" (ArgSpec.none) none : Item String String Nat).ident,
          Item.mk "B" "b" (ArgSpec.none) none),
        ((Item.mk "C" "c" (ArgSpec.none) none : Item String String Nat).ident,
          Item.mk "C" "c" (ArgSpec.none) none)]) rfl
  have hdel := h.2.1 (ItemCollection.mk [Item.mk "B" "b" (ArgSpec.none) none]
      [((Item.mk "B" "b" (ArgSpec.none) none : Item String String Nat).ident,
        Item.mk "B" "b" (ArgSpec.none) none)]) rfl
  exact ⟨(h.1 (by decide)).2.1, (h.1 (by decide)).2.2, hset, hdel, h.2.2 (by decide)⟩

end FlaskNav
